import Mathlib

/-!
Verification of the capo298bot repository: a UCI relay (`capo298bot_uci.py`),
a book move service (`move-service/app.py`) and two opening-book builders
(`tools/build_opening_book.py`, `tools/build_opening_book_capo_turnonly.py`).

The Python code is shallowly embedded: pure functions become Lean functions,
Python `dict`s become association lists preserving insertion order,
`collections.defaultdict(int)` increments become `bumpCount`, Python floats
are idealised as rationals, and the nondeterministic draw of `random.randint`
is an explicit parameter.  `str.split()`, `str.strip()` and `" ".join` are
modelled at the character-list level.
-/

/-- Python whitespace test used by `str.split()` / `str.strip()`:
space, tab, newline, carriage return, vertical tab, form feed. -/
def isWS (c : Char) : Bool :=
  c == ' ' || c == '\t' || c == '\n' || c == '\r' ||
  c == Char.ofNat 11 || c == Char.ofNat 12

/-- Python `str.split()` with no argument: split on maximal runs of
characters satisfying `p`, discarding empty fields.  Generic in the
separator predicate `p`. -/
def splitWS (p : α → Bool) : List α → List (List α)
  | [] => []
  | a :: l =>
    if p a then splitWS p l
    else (a :: l.takeWhile (fun x => !p x)) :: splitWS p (l.dropWhile (fun x => !p x))
termination_by l => l.length
decreasing_by
  · simp only [List.length_cons]; omega
  · have h := (List.dropWhile_sublist (l := l) (fun x => !p x)).length_le
    simp only [List.length_cons]; omega

/-- Python `str.strip()`: drop elements satisfying `p` from both ends. -/
def stripP (p : α → Bool) (l : List α) : List α :=
  ((l.dropWhile p).reverse.dropWhile p).reverse

/-- Python `sep.join(parts)` at list level. -/
def joinSep (sep : α) : List (List α) → List α
  | [] => []
  | [t] => t
  | t :: t' :: ts => t ++ sep :: joinSep sep (t' :: ts)

/-- `str.split()` on a Lean string. -/
def pySplit (s : String) : List String :=
  (splitWS isWS s.data).map (fun t => ⟨t⟩)

/-- `str.strip()` on a Lean string. -/
def pyStrip (s : String) : String :=
  ⟨stripP isWS s.data⟩

/-- `" ".join(parts)` on Lean strings. -/
def joinSpace (parts : List String) : String :=
  ⟨joinSep ' ' (parts.map String.data)⟩

section SplitLemmas

variable {α : Type _} (p : α → Bool)

theorem splitWS_nil : splitWS p [] = [] := by
  simp [splitWS]

theorem splitWS_cons_pos {a : α} (h : p a = true) (l : List α) :
    splitWS p (a :: l) = splitWS p l := by
  rw [splitWS]; simp [h]

theorem splitWS_cons_neg {a : α} (h : p a = false) (l : List α) :
    splitWS p (a :: l) =
      (a :: l.takeWhile (fun x => !p x)) :: splitWS p (l.dropWhile (fun x => !p x)) := by
  rw [splitWS]; simp [h]

theorem takeWhile_all {q : α → Bool} : ∀ {l : List α}, (∀ x ∈ l, q x = true) →
    l.takeWhile q = l
  | [], _ => rfl
  | a :: l, h => by
    have ha : q a = true := h a (List.mem_cons_self a l)
    simp only [List.takeWhile_cons, ha, if_true]
    rw [takeWhile_all (fun x hx => h x (List.mem_cons_of_mem a hx))]

theorem dropWhile_all {q : α → Bool} : ∀ {l : List α}, (∀ x ∈ l, q x = true) →
    l.dropWhile q = []
  | [], _ => rfl
  | a :: l, h => by
    have ha : q a = true := h a (List.mem_cons_self a l)
    simp only [List.dropWhile_cons, ha, if_true]
    exact dropWhile_all (fun x hx => h x (List.mem_cons_of_mem a hx))

theorem takeWhile_none {q : α → Bool} : ∀ {l : List α}, (∀ x ∈ l, q x = false) →
    l.takeWhile q = []
  | [], _ => rfl
  | a :: l, h => by
    have ha : q a = false := h a (List.mem_cons_self a l)
    simp [List.takeWhile_cons, ha]

theorem dropWhile_none {q : α → Bool} : ∀ {l : List α}, (∀ x ∈ l, q x = false) →
    l.dropWhile q = l
  | [], _ => rfl
  | a :: l, h => by
    have ha : q a = false := h a (List.mem_cons_self a l)
    simp [List.dropWhile_cons, ha]

theorem takeWhile_append_all {q : α → Bool} :
    ∀ {xs : List α}, (∀ x ∈ xs, q x = true) → ∀ (ys : List α),
    (xs ++ ys).takeWhile q = xs ++ ys.takeWhile q
  | [], _, ys => rfl
  | a :: xs, h, ys => by
    have ha : q a = true := h a (List.mem_cons_self a xs)
    simp only [List.cons_append, List.takeWhile_cons, ha, if_true]
    rw [takeWhile_append_all (fun x hx => h x (List.mem_cons_of_mem a hx)) ys]

theorem dropWhile_append_all {q : α → Bool} :
    ∀ {xs : List α}, (∀ x ∈ xs, q x = true) → ∀ (ys : List α),
    (xs ++ ys).dropWhile q = ys.dropWhile q
  | [], _, ys => rfl
  | a :: xs, h, ys => by
    have ha : q a = true := h a (List.mem_cons_self a xs)
    simp only [List.cons_append, List.dropWhile_cons, ha, if_true]
    exact dropWhile_append_all (fun x hx => h x (List.mem_cons_of_mem a hx)) ys

theorem takeWhile_append_stopped {q : α → Bool} :
    ∀ {xs : List α}, xs.dropWhile q ≠ [] → ∀ (ys : List α),
    (xs ++ ys).takeWhile q = xs.takeWhile q
  | [], h, _ => absurd rfl h
  | a :: xs, h, ys => by
    by_cases ha : q a = true
    · simp only [List.dropWhile_cons, ha, if_true] at h
      simp only [List.cons_append, List.takeWhile_cons, ha, if_true]
      rw [takeWhile_append_stopped h ys]
    · have ha' : q a = false := by revert ha; cases q a <;> simp
      simp [List.takeWhile_cons, ha']

theorem dropWhile_append_stopped {q : α → Bool} :
    ∀ {xs : List α}, xs.dropWhile q ≠ [] → ∀ (ys : List α),
    (xs ++ ys).dropWhile q = xs.dropWhile q ++ ys
  | [], h, _ => absurd rfl h
  | a :: xs, h, ys => by
    by_cases ha : q a = true
    · simp only [List.dropWhile_cons, ha, if_true] at h ⊢
      simp only [List.cons_append, List.dropWhile_cons, ha, if_true]
      exact dropWhile_append_stopped h ys
    · have ha' : q a = false := by revert ha; cases q a <;> simp
      simp [List.dropWhile_cons, ha']

theorem dropWhile_idem {q : α → Bool} : ∀ (l : List α),
    (l.dropWhile q).dropWhile q = l.dropWhile q
  | [] => rfl
  | a :: l => by
    by_cases ha : q a = true
    · simp only [List.dropWhile_cons, ha, if_true]
      exact dropWhile_idem l
    · have ha' : q a = false := by revert ha; cases q a <;> simp
      simp [List.dropWhile_cons, ha']

theorem splitWS_all_ws : ∀ {w : List α}, (∀ c ∈ w, p c = true) →
    splitWS p w = []
  | [], _ => splitWS_nil p
  | a :: w, h => by
    rw [splitWS_cons_pos p (h a (List.mem_cons_self a w))]
    exact splitWS_all_ws (fun c hc => h c (List.mem_cons_of_mem a hc))

theorem splitWS_sound : ∀ (l : List α), ∀ t ∈ splitWS p l,
    t ≠ [] ∧ ∀ c ∈ t, p c = false
  | [], t, ht => by rw [splitWS_nil] at ht; cases ht
  | a :: l', t, ht => by
    by_cases ha : p a = true
    · rw [splitWS_cons_pos p ha] at ht
      exact splitWS_sound l' t ht
    · have ha' : p a = false := by revert ha; cases p a <;> simp
      rw [splitWS_cons_neg p ha'] at ht
      rcases List.mem_cons.1 ht with h | h
      · subst h
        refine ⟨List.cons_ne_nil _ _, ?_⟩
        intro c hc
        rcases List.mem_cons.1 hc with h | h
        · subst h; exact ha'
        · have := List.mem_takeWhile_imp h
          simpa using this
      · exact splitWS_sound (l'.dropWhile (fun x => !p x)) t h
termination_by l => l.length
decreasing_by
  · simp only [List.length_cons]; omega
  · exact Nat.lt_of_le_of_lt ((List.dropWhile_sublist _).length_le)
      (by simp only [List.length_cons]; omega)

theorem splitWS_append_ws {w : List α} (hw : ∀ c ∈ w, p c = true) :
    ∀ (l : List α), splitWS p (l ++ w) = splitWS p l
  | [] => by simp only [List.nil_append]; rw [splitWS_all_ws p hw, splitWS_nil]
  | a :: l' => by
    by_cases ha : p a = true
    · rw [List.cons_append, splitWS_cons_pos p ha, splitWS_cons_pos p ha]
      exact splitWS_append_ws hw l'
    · have ha' : p a = false := by revert ha; cases p a <;> simp
      rw [List.cons_append, splitWS_cons_neg p ha', splitWS_cons_neg p ha']
      by_cases hd : l'.dropWhile (fun x => !p x) = []
      · have hall : ∀ x ∈ l', (fun x => !p x) x = true := by
          intro x hx
          simpa using List.dropWhile_eq_nil_iff.1 hd x hx
        have hwq : ∀ c ∈ w, (fun x => !p x) c = false := by
          intro c hc; simp [hw c hc]
        rw [takeWhile_append_all hall w, takeWhile_none hwq, List.append_nil,
          dropWhile_append_all hall w, dropWhile_none hwq, takeWhile_all hall,
          hd, splitWS_all_ws p hw, splitWS_nil]
      · rw [takeWhile_append_stopped hd w, dropWhile_append_stopped hd w]
        rw [splitWS_append_ws hw (l'.dropWhile (fun x => !p x))]
termination_by l => l.length
decreasing_by
  · simp only [List.length_cons]; omega
  · exact Nat.lt_of_le_of_lt ((List.dropWhile_sublist _).length_le)
      (by simp only [List.length_cons]; omega)

theorem splitWS_dropWhile : ∀ (l : List α),
    splitWS p (l.dropWhile p) = splitWS p l
  | [] => rfl
  | a :: l' => by
    by_cases ha : p a = true
    · rw [List.dropWhile_cons, if_pos ha, splitWS_cons_pos p ha]
      exact splitWS_dropWhile l'
    · rw [List.dropWhile_cons, if_neg (by simpa using ha)]

theorem splitWS_token {t : List α} (hne : t ≠ []) (ht : ∀ c ∈ t, p c = false) :
    splitWS p t = [t] := by
  match t, hne with
  | a :: t', _ =>
    have ha : p a = false := ht a (List.mem_cons_self a t')
    have hq : ∀ x ∈ t', (fun x => !p x) x = true := by
      intro x hx; simp [ht x (List.mem_cons_of_mem a hx)]
    rw [splitWS_cons_neg p ha, takeWhile_all hq, dropWhile_all hq, splitWS_nil]

theorem splitWS_joinSep {sep : α} (hsep : p sep = true) :
    ∀ (ts : List (List α)), (∀ t ∈ ts, t ≠ [] ∧ ∀ c ∈ t, p c = false) →
    splitWS p (joinSep sep ts) = ts
  | [], _ => by rw [joinSep, splitWS_nil]
  | [t], h => by
    have ht := h t (List.mem_cons_self t [])
    rw [joinSep, splitWS_token p ht.1 ht.2]
  | t :: t' :: ts, h => by
    have ht := h t (List.mem_cons_self t _)
    have hrest : ∀ u ∈ t' :: ts, u ≠ [] ∧ ∀ c ∈ u, p c = false := by
      intro u hu; exact h u (List.mem_cons_of_mem t hu)
    rw [joinSep]
    match t, ht.1 with
    | a :: t'', _ =>
      have ha : p a = false := ht.2 a (List.mem_cons_self a t'')
      have hq : ∀ x ∈ t'', (fun x => !p x) x = true := by
        intro x hx; simp [ht.2 x (List.mem_cons_of_mem a hx)]
      have hsep' : (fun x => !p x) sep = false := by simp [hsep]
      rw [List.cons_append, splitWS_cons_neg p ha]
      rw [takeWhile_append_all hq _, dropWhile_append_all hq _]
      rw [List.takeWhile_cons, if_neg (by simp [hsep']), List.append_nil]
      rw [List.dropWhile_cons, if_neg (by simp [hsep'])]
      rw [splitWS_cons_pos p hsep]
      rw [splitWS_joinSep hsep (t' :: ts) hrest]

end SplitLemmas

theorem rev_strip_decomp (p : α → Bool) (u : List α) :
    u = (u.reverse.dropWhile p).reverse ++ (u.reverse.takeWhile p).reverse := by
  conv_lhs => rw [← List.reverse_reverse u,
    ← List.takeWhile_append_dropWhile (p := p) (l := u.reverse)]
  rw [List.reverse_append]

theorem stripP_decomp (p : α → Bool) (l : List α) :
    l.dropWhile p = stripP p l ++ ((l.dropWhile p).reverse.takeWhile p).reverse :=
  rev_strip_decomp p (l.dropWhile p)

theorem splitWS_stripP (p : α → Bool) (l : List α) :
    splitWS p (stripP p l) = splitWS p l := by
  have hw : ∀ c ∈ ((l.dropWhile p).reverse.takeWhile p).reverse, p c = true := by
    intro c hc
    rw [List.mem_reverse] at hc
    exact List.mem_takeWhile_imp hc
  calc splitWS p (stripP p l)
      = splitWS p (stripP p l ++ ((l.dropWhile p).reverse.takeWhile p).reverse) :=
        (splitWS_append_ws p hw _).symm
    _ = splitWS p (l.dropWhile p) := by rw [← stripP_decomp]
    _ = splitWS p l := splitWS_dropWhile p l

theorem dropWhile_stripP (p : α → Bool) (l : List α) :
    (stripP p l).dropWhile p = stripP p l := by
  rcases hsp : stripP p l with _ | ⟨x, xs⟩
  · simp
  · have hd : (l.dropWhile p).dropWhile p = l.dropWhile p := dropWhile_idem _
    have hdecomp := stripP_decomp p l
    rw [hsp] at hdecomp
    by_cases hx : p x = true
    · exfalso
      rw [hdecomp, List.cons_append, List.dropWhile_cons, if_pos hx] at hd
      have hlen := congrArg List.length hd
      have hle := (List.dropWhile_sublist
        (l := xs ++ ((l.dropWhile p).reverse.takeWhile p).reverse) p).length_le
      simp only [List.length_cons] at hlen
      omega
    · have hx' : p x = false := by revert hx; cases p x <;> simp
      rw [List.dropWhile_cons, if_neg (by simp [hx'])]

theorem stripP_idem (p : α → Bool) (l : List α) :
    stripP p (stripP p l) = stripP p l := by
  show (((stripP p l).dropWhile p).reverse.dropWhile p).reverse = stripP p l
  rw [dropWhile_stripP p l]
  have h2 : (stripP p l).reverse = ((l.dropWhile p).reverse).dropWhile p := by
    simp [stripP, List.reverse_reverse]
  rw [h2, dropWhile_idem, ← h2, List.reverse_reverse]

/-- Character-level form of `normalize_fen`, shared by the three files:
split on whitespace; with fewer than four fields return the stripped input,
otherwise rejoin the first four fields with single spaces. -/
def nfChars (l : List Char) : List Char :=
  if (splitWS isWS l).length < 4 then stripP isWS l
  else joinSep ' ' ((splitWS isWS l).take 4)

theorem nfChars_idem (l : List Char) : nfChars (nfChars l) = nfChars l := by
  by_cases h : (splitWS isWS l).length < 4
  · have hval : nfChars l = stripP isWS l := by rw [nfChars, if_pos h]
    rw [hval, nfChars, splitWS_stripP isWS l, if_pos h, stripP_idem]
  · have hval : nfChars l = joinSep ' ' ((splitWS isWS l).take 4) := by
      rw [nfChars, if_neg h]
    rw [hval, nfChars]
    have htok : ∀ t ∈ (splitWS isWS l).take 4, t ≠ [] ∧ ∀ c ∈ t, isWS c = false := by
      intro t ht
      exact splitWS_sound isWS l t (List.take_subset 4 _ ht)
    have hsp : isWS ' ' = true := by decide
    rw [splitWS_joinSep isWS hsp _ htok]
    have hlen : ((splitWS isWS l).take 4).length = 4 := by
      rw [List.length_take]; omega
    rw [if_neg (by omega), List.take_take]
    norm_num

/-- Association-list lookup by string key: first binding wins, like a
Python `dict` access (keys are unique in the dicts this models). -/
def lookupStr (l : List (String × β)) (k : String) : Option β :=
  (l.find? (fun q => q.1 == k)).map Prod.snd

/-- One step of Python's stable `sorted(key=count, reverse=True)`:
insert after every element with a count at least as large, so ties keep
their original (insertion) order. -/
def insertDesc (x : String × Nat) : List (String × Nat) → List (String × Nat)
  | [] => [x]
  | y :: ys => if x.2 ≤ y.2 then y :: insertDesc x ys else x :: y :: ys

/-- `sorted(moves.items(), key=lambda kv: kv[1], reverse=True)`:
stable descending sort on the count. -/
def sortDesc (items : List (String × Nat)) : List (String × Nat) :=
  items.foldl (fun acc x => insertDesc x acc) []

/-- `sum(c for _, c in items)`. -/
def sumCounts (items : List (String × Nat)) : Nat :=
  (items.map Prod.snd).sum

/-- `max(moves.values())` (0 on the empty list; every call site
guarantees a non-empty argument, as `max` raises in Python otherwise). -/
def maxCount (items : List (String × Nat)) : Nat :=
  (items.map Prod.snd).foldr max 0

/-- The `for uci, _ in ...: if uci in legal_uci: ... break / else:` scan:
first move of `items` contained in `legal`, if any. -/
def firstLegal (items : List (String × Nat)) (legal : List String) : Option String :=
  (items.find? (fun q => legal.contains q.1)).map Prod.fst

namespace MoveService

/-- `normalize_fen` of `move-service/app.py`: keep the first four
whitespace-separated FEN fields; with fewer than four, return the
stripped input. -/
def normalize_fen (fen : String) : String :=
  let parts := pySplit fen
  if parts.length < 4 then pyStrip fen
  else joinSpace (parts.take 4)

theorem normalize_fen_eq_nfChars (s : String) :
    normalize_fen s = ⟨nfChars s.data⟩ := by
  unfold normalize_fen nfChars pySplit pyStrip joinSpace
  simp only [List.length_map]
  by_cases h : (splitWS isWS s.data).length < 4
  · rw [if_pos h, if_pos h]
  · rw [if_neg h, if_neg h]
    congr 1
    rw [← List.map_take, List.map_map]
    congr 1
    exact List.map_id _

/-- The accumulation loop of `weighted_choice`: running cumulative sum `s`,
return the first move whose cumulative sum reaches the draw `r`
(`if r <= s: return uci`). -/
def wcLoop : List (String × Nat) → Nat → Nat → Option String
  | [], _, _ => none
  | (uci, c) :: rest, r, s =>
    if r ≤ s + c then some uci else wcLoop rest r (s + c)

/-- `weighted_choice(moves)` of `move-service/app.py`, with the value of
`random.randint(1, total)` injected as the explicit draw `r`; the code
walks `moves.items()` in insertion order.  The trailing
`return items[0][0]` (reached only if `r` exceeds the sum of all counts)
is modelled with a default for the empty list, which no caller hits. -/
def weighted_choice (items : List (String × Nat)) (r : Nat) : String :=
  match wcLoop items r 0 with
  | some uci => uci
  | none => (items.headD ("", 0)).1

/-- The draw range used by the code: `random.randint(1, total)` where
`total = sum(c for _, c in items)` is computed inside `weighted_choice`
from the moves mapping itself. -/
def drawUpperBound (items : List (String × Nat)) : Nat :=
  sumCounts items

/-- Modelled from the spec (for comparison only): a weighted draw that
walks the moves in count-descending order (insertion order at ties), as
step 7 of the spec's decision chain describes. -/
def weighted_choice_specOrder (items : List (String × Nat)) (r : Nat) : String :=
  match wcLoop (sortDesc items) r 0 with
  | some uci => uci
  | none => ((sortDesc items).headD ("", 0)).1

/-- Book entry as read from the artifact: `int(entry.get("total", 0))`
and the `moves` mapping in stored (insertion) order. -/
structure Entry where
  total : Int
  moves : List (String × Nat)
deriving DecidableEq

/-- Adaptive thresholds from the book `meta` (Python floats idealised
as rationals). -/
structure BookMeta where
  min_position_count : Int
  min_top_move_ratio : ℚ
  max_ply_cap : Int

/-- The request body of `POST /move`. -/
structure MoveRequest where
  fen : String
  ply : Int

/-- The response model `MoveResponse(move, source, confidence)`. -/
structure MoveResponse where
  move : Option String
  source : String
  confidence : ℚ
deriving DecidableEq

/-- What `chess.Board(req.fen)` provides when parsing succeeds: the
canonical FEN `board.fen()` and the legal-move set
`{m.uci() for m in board.legal_moves}`. -/
structure BoardInfo where
  fen : String
  legal : List String

/-- `get_move` of `move-service/app.py`.  The chess-rules oracle is the
abstract `parse` (returning `none` exactly when `chess.Board` raises),
the loaded book is `positions`/`meta`, and the `random.randint` draw is
the explicit `draw`. -/
def get_move (parse : String → Option BoardInfo)
    (positions : List (String × Entry)) (meta : BookMeta)
    (req : MoveRequest) (draw : Nat) : MoveResponse :=
  match parse req.fen with
  | none => ⟨none, "invalid_fen", 0⟩
  | some board =>
    match lookupStr positions (normalize_fen board.fen) with
    | none => ⟨none, "no_book_hit", 0⟩
    | some entry =>
      if entry.moves = [] ∨ entry.total ≤ 0 then ⟨none, "empty_entry", 0⟩
      else if meta.max_ply_cap ≤ req.ply then ⟨none, "ply_cap", 0⟩
      else
        let top_ratio : ℚ := (maxCount entry.moves : ℚ) / (entry.total : ℚ)
        if entry.total < meta.min_position_count then
          ⟨none, "below_min_count", top_ratio⟩
        else if top_ratio < meta.min_top_move_ratio then
          ⟨none, "low_confidence", top_ratio⟩
        else
          let chosen := weighted_choice entry.moves draw
          if board.legal.contains chosen then
            ⟨some chosen, "opening_book", top_ratio⟩
          else
            match firstLegal (sortDesc entry.moves) board.legal with
            | some uci => ⟨some uci, "opening_book", top_ratio⟩
            | none => ⟨none, "no_legal_book_move", top_ratio⟩

end MoveService

/-- Python `s.startswith(prefixString)` at the character level. -/
def pyStartsWith (pre s : String) : Bool := pre.data.isPrefixOf s.data

/-- `defaultdict(int)` increment `d[k] += 1` on an insertion-ordered
association list: bump the binding in place, or append `(k, 1)`. -/
def bumpCount : List (String × Nat) → String → List (String × Nat)
  | [], k => [(k, 1)]
  | (k', v) :: rest, k =>
    if k' == k then (k', v + 1) :: rest else (k', v) :: bumpCount rest k

/-- `defaultdict(lambda: defaultdict(int))` increment
`move_counts[fen][uci] += 1`. -/
def bumpMoves : List (String × List (String × Nat)) → String → String →
    List (String × List (String × Nat))
  | [], fen, uci => [(fen, bumpCount [] uci)]
  | (k, m) :: rest, fen, uci =>
    if k == fen then (k, bumpCount m uci) :: rest
    else (k, m) :: bumpMoves rest fen uci

/-- One recorded ply of the builders' game loop: given the pair
`(fen_key, uci)` derived from the board before the move, execute
`total_positions[fen_key] += 1; move_counts[fen_key][uci] += 1`. -/
def recordPly (st : List (String × Nat) × List (String × List (String × Nat)))
    (ply : String × String) :
    List (String × Nat) × List (String × List (String × Nat)) :=
  (bumpCount st.1 ply.1, bumpMoves st.2 ply.1 ply.2)

namespace BookPlain

/-- `normalize_fen` of `tools/build_opening_book.py` (textually identical
to the move service's). -/
def normalize_fen (fen : String) : String :=
  let parts := pySplit fen
  if parts.length < 4 then pyStrip fen
  else joinSpace (parts.take 4)

/-- The two counters after the game loop of `build_opening_book`, given
the list of `(fen_key, uci)` pairs the loop records.  Replaying the PGN
through the chess library (which positions/moves get recorded, and the
`ply >= max_ply_cap` cut) happens upstream and determines `plies`. -/
def recordPlies (plies : List (String × String)) :
    List (String × Nat) × List (String × List (String × Nat)) :=
  plies.foldl recordPly ([], [])

/-- The `positions_out` construction: for each `fen_key` of
`move_counts`, emit `{total: total_positions[fen_key],
moves: dict(sorted(moves_dict.items(), key=count, reverse=True))}`. -/
def positions_out (plies : List (String × String)) :
    List (String × (Nat × List (String × Nat))) :=
  (recordPlies plies).2.map
    (fun fm => (fm.1, ((lookupStr (recordPlies plies).1 fm.1).getD 0, sortDesc fm.2)))

end BookPlain

namespace BookTurnonly

/-- `normalize_fen` of `tools/build_opening_book_capo_turnonly.py`
(textually identical to the move service's). -/
def normalize_fen (fen : String) : String :=
  let parts := pySplit fen
  if parts.length < 4 then pyStrip fen
  else joinSpace (parts.take 4)

/-- Counter state of `build_opening_book` in the turn-only builder; its
`plies` contains only the plies where the designated player is on move
(that filter sits upstream in the game loop). -/
def recordPlies (plies : List (String × String)) :
    List (String × Nat) × List (String × List (String × Nat)) :=
  plies.foldl recordPly ([], [])

/-- `positions_out` of the turn-only builder: the same construction as
the plain builder's. -/
def positions_out (plies : List (String × String)) :
    List (String × (Nat × List (String × Nat))) :=
  (recordPlies plies).2.map
    (fun fm => (fm.1, ((lookupStr (recordPlies plies).1 fm.1).getD 0, sortDesc fm.2)))

end BookTurnonly

/-- JSON-like values, enough to describe the emitted artifacts. -/
inductive JVal where
  | jint (n : Int)
  | jrat (q : ℚ)
  | jstr (s : String)
  | jbool (b : Bool)
  | jobj (fields : List (String × JVal))

/-- Top-level keys of a JSON object (in emission order). -/
def jkeys : JVal → List String
  | .jobj fields => fields.map Prod.fst
  | _ => []

/-- Field access in a JSON object. -/
def jget (v : JVal) (k : String) : Option JVal :=
  match v with
  | .jobj fields => lookupStr fields k
  | _ => none

/-- A `moves` mapping as emitted JSON. -/
def movesJ (m : List (String × Nat)) : JVal :=
  .jobj (m.map (fun q => (q.1, JVal.jint q.2)))

/-- A position entry as emitted JSON: `{"total": N, "moves": {...}}`. -/
def entryJ (e : Nat × List (String × Nat)) : JVal :=
  .jobj [("total", .jint e.1), ("moves", movesJ e.2)]

/-- The `positions` object as emitted JSON. -/
def positionsJ (pos : List (String × (Nat × List (String × Nat)))) : JVal :=
  .jobj (pos.map (fun q => (q.1, entryJ q.2)))

namespace BookPlain

/-- The `meta` object of `tools/build_opening_book.py`. -/
def metaJ (min_position_count : Int) (min_top_move_ratio : ℚ)
    (max_ply_cap : Int) : JVal :=
  .jobj [("player", .jstr "capo298"),
         ("source", .jstr "Chess.com exports (zip)"),
         ("adaptive", .jbool true),
         ("min_position_count", .jint min_position_count),
         ("min_top_move_ratio", .jrat min_top_move_ratio),
         ("max_ply_cap", .jint max_ply_cap),
         ("fen_format", .jstr "pieces side castling ep (no half/fullmove)")]

/-- The artifact returned by the plain builder:
`{"meta": ..., "positions": ...}`. -/
def build_opening_book (plies : List (String × String))
    (min_position_count : Int) (min_top_move_ratio : ℚ)
    (max_ply_cap : Int) : JVal :=
  .jobj [("meta", metaJ min_position_count min_top_move_ratio max_ply_cap),
         ("positions", positionsJ (positions_out plies))]

end BookPlain

namespace BookTurnonly

/-- The `meta` object of the turn-only builder (the `note` text is
reproduced up to punctuation). -/
def metaJ (player : String) (max_ply_cap : Int) : JVal :=
  .jobj [("player", .jstr player),
         ("source", .jstr "Chess.com exports (zip)"),
         ("note", .jstr "Counts only moves where it is the players turn (fixes opponent-move contamination)"),
         ("max_ply_cap", .jint max_ply_cap),
         ("fen_format", .jstr "pieces side castling ep (no half/fullmove)")]

/-- The `stats` object of the turn-only builder. -/
def statsJ (games_seen games_used games_skipped : Nat) : JVal :=
  .jobj [("games_seen", .jint games_seen),
         ("games_used", .jint games_used),
         ("games_skipped", .jint games_skipped)]

/-- The artifact returned by the turn-only builder:
`{"meta": ..., "positions": ..., "stats": ...}`. -/
def build_opening_book (plies : List (String × String)) (player : String)
    (max_ply_cap : Int) (games_seen games_used games_skipped : Nat) : JVal :=
  .jobj [("meta", metaJ player max_ply_cap),
         ("positions", positionsJ (positions_out plies)),
         ("stats", statsJ games_seen games_used games_skipped)]

end BookTurnonly

namespace UciWrapper

/-- A line the relay prints: `log` produces `info string ...` lines, the
best-move announcement is `bestmove ...`; the constructor records which
protocol token the line carries. -/
inductive OutLine where
  | info (msg : String)
  | best (m : String)
deriving DecidableEq

/-- Whether a printed line is a best-move response line. -/
def isBestLine : OutLine → Bool
  | .best _ => true
  | .info _ => false

/-- Outcome of the HTTP call in `request_book_move`: `fail` covers every
raised exception (connection error, the 1.5s timeout, a non-2xx status
via `raise_for_status`, undecodable JSON, a malformed `confidence`);
`ok` carries the decoded response fields, each possibly absent. -/
inductive SvcOutcome where
  | fail
  | ok (move : Option String) (source : Option String) (conf : ℚ)

/-- `request_book_move` of `capo298bot_uci.py`: on any exception return
`(None, "move_service_error", 0.0)`, otherwise the decoded fields. -/
def request_book_move : SvcOutcome → Option String × Option String × ℚ
  | .fail => (none, some "move_service_error", 0)
  | .ok m s c => (m, s, c)

/-- Python truthiness of the `move` field (`if move:`): `None` and the
empty string are falsy. -/
def pyTruthy : Option String → Bool
  | none => false
  | some s => !(s == "")

/-- The `go`-command handler of the relay loop `main`, after the
position to search has been resolved: query the book service, print the
book move when truthy, otherwise print the engine fallback; one `log`
line precedes each `bestmove` line. -/
def handleGo (o : SvcOutcome) (engineMove : String) : List OutLine :=
  let r := request_book_move o
  if pyTruthy r.1 then
    [.info ("book " ++ r.1.getD ""), .best (r.1.getD "")]
  else
    [.info ("sf " ++ engineMove), .best engineMove]

/-- How one `_read_until` call ends: `hangs` when a blocking
`readline()` never returns (the loop never reaches another deadline
check), `timedOut` when the loop returns `(lines, None)` — either the
between-reads deadline check fired or `readline()` returned the empty
string (EOF) — and `found line` when a line starting with the wanted
token is returned. -/
inductive ReadResult where
  | hangs
  | timedOut
  | found (line : String)
deriving DecidableEq

/-- `StockfishUCI._read_until`, with real time explicit: the subprocess
stdout is the list of successive `readline()` results, each paired with
the elapsed seconds since `start` at which that call returns (an empty
string models EOF; an exhausted list models a readline that blocks
forever).  Faithful to the source, the wall-clock deadline
`time.time() - start > timeout_s` is checked only at the top of the
loop, between reads — `readline()` itself has no timeout — so the check
after processing a line compares that line's return time against the
deadline, a line returning after the deadline is still processed, and a
silent-but-alive subprocess blocks the call forever. -/
def read_until_timed (timeout_s : ℚ) (pre : String) :
    ℚ → List (ℚ × String) → ReadResult
  | now, [] => if now > timeout_s then .timedOut else .hangs
  | now, (t, line) :: rest =>
    if now > timeout_s then .timedOut
    else if line = "" then .timedOut
    else if pyStartsWith pre (pyStrip line) then .found (pyStrip line)
    else read_until_timed timeout_s pre t rest

/-- `StockfishUCI.bestmove` over the timed stream: read until a
`bestmove` line under the 20-second deadline; `none` means the call
never returns (the read hangs), `some "0000"` is the null-move sentinel
on deadline/EOF, and otherwise the announcement's second
whitespace-separated token is returned (`"0000"` if it has fewer than
two tokens). -/
def bestmove_timed (reads : List (ℚ × String)) : Option String :=
  match read_until_timed 20 "bestmove" 0 reads with
  | .hangs => none
  | .timedOut => some "0000"
  | .found line =>
    match pySplit line with
    | _ :: m :: _ => some m
    | _ => some "0000"

end UciWrapper

/-- Claim C9: for every request whose position string cannot be parsed as
a valid position (`chess.Board` raises), the service returns a normal
response with move `null`, reason `invalid_fen` and confidence `0.0`;
being a returned value of the total `get_move`, the parse failure never
raises past the boundary. -/
theorem c9_invalid_fen_rejected (parse : String → Option MoveService.BoardInfo)
    (positions : List (String × MoveService.Entry)) (meta : MoveService.BookMeta)
    (req : MoveService.MoveRequest) (draw : Nat)
    (h : parse req.fen = none) :
    MoveService.get_move parse positions meta req draw = ⟨none, "invalid_fen", 0⟩ := by
  unfold MoveService.get_move
  rw [h]

/-- Witness for C9 at a concrete unparseable request. -/
theorem c9_invalid_fen_witness :
    MoveService.get_move (fun _ => none) [] ⟨8, 11/20, 20⟩ ⟨"not a fen", 0⟩ 1 =
      ⟨none, "invalid_fen", 0⟩ :=
  c9_invalid_fen_rejected _ _ _ _ _ rfl

/-- Counterexample to claim C2: with `ply = 20 ≥ max_ply_cap = 20` but no
book entry for the position, the service answers `no_book_hit`, not
`ply_cap` — the ply-cap check is evaluated only after the book-hit and
empty-entry checks, so the rejection reason is not independent of book
contents. -/
theorem c2_counterexample :
    MoveService.get_move (fun s => some ⟨s, []⟩) [] ⟨8, 11/20, 20⟩ ⟨"k", 20⟩ 1 =
      ⟨none, "no_book_hit", 0⟩ ∧
    (20 : Int) ≤ 20 ∧ ("no_book_hit" : String) ≠ "ply_cap" := by
  refine ⟨rfl, le_refl _, by decide⟩

/-- Claim C2 (amended): for every request with `ply ≥ max_ply_cap` that
reaches the ply-cap check — valid position, a book entry present, with
non-empty moves and positive total — the result is
`Rejected(ply_cap, 0.0)`; with no (usable) entry the earlier
`no_book_hit`/`empty_entry` rejection fires instead. -/
theorem c2_ply_cap_rejection (parse : String → Option MoveService.BoardInfo)
    (positions : List (String × MoveService.Entry)) (meta : MoveService.BookMeta)
    (req : MoveService.MoveRequest) (draw : Nat)
    (board : MoveService.BoardInfo) (entry : MoveService.Entry)
    (hp : parse req.fen = some board)
    (hl : lookupStr positions (MoveService.normalize_fen board.fen) = some entry)
    (hne : ¬(entry.moves = [] ∨ entry.total ≤ 0))
    (hply : meta.max_ply_cap ≤ req.ply) :
    MoveService.get_move parse positions meta req draw = ⟨none, "ply_cap", 0⟩ := by
  unfold MoveService.get_move
  rw [hp]; dsimp only
  rw [hl]; dsimp only
  rw [if_neg hne, if_pos hply]

/-- Witness for the amended C2 at a concrete request hitting the cap. -/
theorem c2_ply_cap_witness :
    MoveService.get_move (fun _ => some ⟨"a b c d", ["e2e4"]⟩)
      [(MoveService.normalize_fen "a b c d", ⟨10, [("e2e4", 9), ("d2d4", 1)]⟩)]
      ⟨8, 11/20, 20⟩ ⟨"x", 20⟩ 1 = ⟨none, "ply_cap", 0⟩ :=
  c2_ply_cap_rejection (fun _ => some ⟨"a b c d", ["e2e4"]⟩)
    [(MoveService.normalize_fen "a b c d", ⟨10, [("e2e4", 9), ("d2d4", 1)]⟩)]
    ⟨8, 11/20, 20⟩ ⟨"x", 20⟩ 1 ⟨"a b c d", ["e2e4"]⟩ ⟨10, [("e2e4", 9), ("d2d4", 1)]⟩
    rfl (by simp [lookupStr]) (by decide) (by decide)

/-- Claim C6: once a request has a book hit with non-empty moves,
positive total and ply below the cap, a total below `min_position_count`
is rejected as `below_min_count`, and otherwise a top-move ratio below
`min_top_move_ratio` is rejected as `low_confidence`; both rejections
carry `topRatio = max(moves.values()) / total` as the confidence, not 0. -/
theorem c6_threshold_rejections (parse : String → Option MoveService.BoardInfo)
    (positions : List (String × MoveService.Entry)) (meta : MoveService.BookMeta)
    (req : MoveService.MoveRequest) (draw : Nat)
    (board : MoveService.BoardInfo) (entry : MoveService.Entry)
    (hp : parse req.fen = some board)
    (hl : lookupStr positions (MoveService.normalize_fen board.fen) = some entry)
    (hne : ¬(entry.moves = [] ∨ entry.total ≤ 0))
    (hply : ¬ meta.max_ply_cap ≤ req.ply) :
    (entry.total < meta.min_position_count →
      MoveService.get_move parse positions meta req draw =
        ⟨none, "below_min_count", (maxCount entry.moves : ℚ) / (entry.total : ℚ)⟩) ∧
    (¬ entry.total < meta.min_position_count →
      (maxCount entry.moves : ℚ) / (entry.total : ℚ) < meta.min_top_move_ratio →
      MoveService.get_move parse positions meta req draw =
        ⟨none, "low_confidence", (maxCount entry.moves : ℚ) / (entry.total : ℚ)⟩) := by
  constructor
  · intro hmin
    unfold MoveService.get_move
    rw [hp]; dsimp only
    rw [hl]; dsimp only
    rw [if_neg hne, if_neg hply, if_pos hmin]
  · intro hmin hconf
    unfold MoveService.get_move
    rw [hp]; dsimp only
    rw [hl]; dsimp only
    rw [if_neg hne, if_neg hply, if_neg hmin, if_pos hconf]

/-- Witness for C6: a `below_min_count` rejection (total 5 < 8) and a
`low_confidence` rejection (ratio 1/2 < 11/20), each with confidence
equal to the top-move ratio. -/
theorem c6_threshold_witness :
    MoveService.get_move (fun _ => some ⟨"a b c d", ["e2e4"]⟩)
      [(MoveService.normalize_fen "a b c d", ⟨5, [("e2e4", 3), ("d2d4", 2)]⟩)]
      ⟨8, 11/20, 20⟩ ⟨"x", 0⟩ 1 = ⟨none, "below_min_count", 3 / 5⟩ ∧
    MoveService.get_move (fun _ => some ⟨"a b c d", ["e2e4"]⟩)
      [(MoveService.normalize_fen "a b c d", ⟨10, [("e2e4", 5), ("d2d4", 5)]⟩)]
      ⟨8, 11/20, 20⟩ ⟨"x", 0⟩ 1 = ⟨none, "low_confidence", 5 / 10⟩ := by
  constructor
  · exact (c6_threshold_rejections (fun _ => some ⟨"a b c d", ["e2e4"]⟩)
      [(MoveService.normalize_fen "a b c d", ⟨5, [("e2e4", 3), ("d2d4", 2)]⟩)]
      ⟨8, 11/20, 20⟩ ⟨"x", 0⟩ 1 ⟨"a b c d", ["e2e4"]⟩ ⟨5, [("e2e4", 3), ("d2d4", 2)]⟩
      rfl (by simp [lookupStr]) (by decide) (by decide)).1 (by decide)
  · exact (c6_threshold_rejections (fun _ => some ⟨"a b c d", ["e2e4"]⟩)
      [(MoveService.normalize_fen "a b c d", ⟨10, [("e2e4", 5), ("d2d4", 5)]⟩)]
      ⟨8, 11/20, 20⟩ ⟨"x", 0⟩ 1 ⟨"a b c d", ["e2e4"]⟩ ⟨10, [("e2e4", 5), ("d2d4", 5)]⟩
      rfl (by simp [lookupStr]) (by decide) (by decide)).2 (by decide) (by norm_num [maxCount])

/-- Counterexample to claim C3: `weighted_choice` walks `moves.items()`
in insertion order, not count-descending order.  For the mapping stored
as `{"b":1, "a":9}`, draw 1 selects `"b"`, while the spec's
count-descending walk selects `"a"`.  Moreover the draw range is
`[1, sum(counts)]` computed from the mapping, not the entry's recorded
`total`: for counts `{a:3, b:2}` it is 5 whatever `total` says. -/
theorem c3_counterexample :
    MoveService.weighted_choice [("b", 1), ("a", 9)] 1 = "b" ∧
    MoveService.weighted_choice_specOrder [("b", 1), ("a", 9)] 1 = "a" ∧
    ("b" : String) ≠ "a" ∧
    MoveService.drawUpperBound [("a", 3), ("b", 2)] = 5 ∧ (5 : Nat) ≠ 10 := by
  refine ⟨rfl, rfl, by decide, rfl, by decide⟩

/-- Claim C3 (amended): the selector draws one integer uniformly in
`[1, total]` where `total` is the sum of the entry's move counts (equal
to the recorded total for builder-produced entries), walks the moves in
the mapping's stored (insertion) order accumulating counts, and returns
the first move whose cumulative sum is ≥ the draw; for the entry
`{total:10, moves:{"a":9,"b":1}}` stored in that order, draws 1–9 yield
`"a"` and draw 10 yields `"b"`, and over the draw range each move is
selected on exactly as many draws as its recorded count. -/
theorem c3_weighted_draw (r : Nat) :
    MoveService.drawUpperBound [("a", 9), ("b", 1)] = 10 ∧
    (1 ≤ r → r ≤ 9 → MoveService.weighted_choice [("a", 9), ("b", 1)] r = "a") ∧
    (r = 10 → MoveService.weighted_choice [("a", 9), ("b", 1)] r = "b") ∧
    ((Finset.Icc 1 10).filter
      (fun i => MoveService.weighted_choice [("a", 9), ("b", 1)] i = "a")).card = 9 ∧
    ((Finset.Icc 1 10).filter
      (fun i => MoveService.weighted_choice [("a", 9), ("b", 1)] i = "b")).card = 1 := by
  refine ⟨rfl, ?_, ?_, by decide, by decide⟩
  · intro h1 h9
    interval_cases r <;> rfl
  · intro h; subst h; rfl

/-- Witness for the amended C3 at draws 5 and 10. -/
theorem c3_weighted_draw_witness :
    MoveService.weighted_choice [("a", 9), ("b", 1)] 5 = "a" ∧
    MoveService.weighted_choice [("a", 9), ("b", 1)] 10 = "b" :=
  ⟨(c3_weighted_draw 5).2.1 (by decide) (by decide),
   (c3_weighted_draw 10).2.2.1 rfl⟩

/-- Counterexample to claim C4: the fallback rescan order
(count-descending, stable) and the weighted draw's walk order (the
mapping's insertion order) are not identical for every moves mapping.
For `{"b":1, "a":9}` the rescan visits `"a"` first (the sort reorders
the list), while the draw walks `"b"` first (draw 1 selects it). -/
theorem c4_counterexample :
    sortDesc [("b", 1), ("a", 9)] = [("a", 9), ("b", 1)] ∧
    ([("a", 9), ("b", 1)] : List (String × Nat)) ≠ [("b", 1), ("a", 9)] ∧
    MoveService.weighted_choice [("b", 1), ("a", 9)] 1 = "b" ∧
    firstLegal (sortDesc [("b", 1), ("a", 9)]) ["a", "b"] = some "a" := by
  refine ⟨rfl, by decide, rfl, rfl⟩

/-- Claim C4 (amended): when the drawn move is not in the legal-move
set, the selector rescans the moves sorted count-descending (insertion
order at ties, Python's stable sort) — not the draw's insertion-order
walk, with which it coincides only when the mapping is already stored
count-descending — and returns Accepted on the first legal move found;
if no move of the entry is legal it returns
`Rejected(no_legal_book_move, topRatio)`. -/
theorem c4_fallback_rescan (parse : String → Option MoveService.BoardInfo)
    (positions : List (String × MoveService.Entry)) (meta : MoveService.BookMeta)
    (req : MoveService.MoveRequest) (draw : Nat)
    (board : MoveService.BoardInfo) (entry : MoveService.Entry)
    (hp : parse req.fen = some board)
    (hl : lookupStr positions (MoveService.normalize_fen board.fen) = some entry)
    (hne : ¬(entry.moves = [] ∨ entry.total ≤ 0))
    (hply : ¬ meta.max_ply_cap ≤ req.ply)
    (hmin : ¬ entry.total < meta.min_position_count)
    (hconf : ¬ (maxCount entry.moves : ℚ) / (entry.total : ℚ) < meta.min_top_move_ratio)
    (hillegal : board.legal.contains (MoveService.weighted_choice entry.moves draw) = false) :
    (∀ u, firstLegal (sortDesc entry.moves) board.legal = some u →
      MoveService.get_move parse positions meta req draw =
        ⟨some u, "opening_book", (maxCount entry.moves : ℚ) / (entry.total : ℚ)⟩) ∧
    (firstLegal (sortDesc entry.moves) board.legal = none →
      MoveService.get_move parse positions meta req draw =
        ⟨none, "no_legal_book_move", (maxCount entry.moves : ℚ) / (entry.total : ℚ)⟩) := by
  have hcond : ¬ (board.legal.contains (MoveService.weighted_choice entry.moves draw) = true) :=
    fun hc => Bool.noConfusion (hillegal ▸ hc)
  constructor
  · intro u hu
    unfold MoveService.get_move
    rw [hp]; dsimp only
    rw [hl]; dsimp only
    rw [if_neg hne, if_neg hply, if_neg hmin, if_neg hconf, if_neg hcond, hu]
  · intro hu
    unfold MoveService.get_move
    rw [hp]; dsimp only
    rw [hl]; dsimp only
    rw [if_neg hne, if_neg hply, if_neg hmin, if_neg hconf, if_neg hcond, hu]

/-- Witness for the amended C4: a fallback acceptance (drawn move
illegal, highest-count legal move answered) and a
`no_legal_book_move` rejection (no entry move legal). -/
theorem c4_fallback_witness :
    MoveService.get_move (fun _ => some ⟨"a b c d", ["a", "b"]⟩)
      [(MoveService.normalize_fen "a b c d", ⟨10, [("x", 5), ("b", 1), ("a", 9)]⟩)]
      ⟨8, 11/20, 20⟩ ⟨"f", 0⟩ 1 = ⟨some "a", "opening_book", 9 / 10⟩ ∧
    MoveService.get_move (fun _ => some ⟨"a b c d", ["a"]⟩)
      [(MoveService.normalize_fen "a b c d", ⟨10, [("x", 9), ("y", 1)]⟩)]
      ⟨8, 11/20, 20⟩ ⟨"f", 0⟩ 1 = ⟨none, "no_legal_book_move", 9 / 10⟩ := by
  constructor
  · exact (c4_fallback_rescan (fun _ => some ⟨"a b c d", ["a", "b"]⟩)
      [(MoveService.normalize_fen "a b c d", ⟨10, [("x", 5), ("b", 1), ("a", 9)]⟩)]
      ⟨8, 11/20, 20⟩ ⟨"f", 0⟩ 1 ⟨"a b c d", ["a", "b"]⟩ ⟨10, [("x", 5), ("b", 1), ("a", 9)]⟩
      rfl (by simp [lookupStr]) (by decide) (by decide) (by decide)
      (by norm_num [maxCount]) rfl).1 "a" rfl
  · exact (c4_fallback_rescan (fun _ => some ⟨"a b c d", ["a"]⟩)
      [(MoveService.normalize_fen "a b c d", ⟨10, [("x", 9), ("y", 1)]⟩)]
      ⟨8, 11/20, 20⟩ ⟨"f", 0⟩ 1 ⟨"a b c d", ["a"]⟩ ⟨10, [("x", 9), ("y", 1)]⟩
      rfl (by simp [lookupStr]) (by decide) (by decide) (by decide)
      (by norm_num [maxCount]) rfl).2 rfl

/-- Claim C10: `normalize_fen` is the same function in the move service
and in both book builders, and it is idempotent, so the keys the service
looks up agree with the keys the builders recorded. -/
theorem c10_normalize_fen_shared_idempotent :
    (∀ f, BookPlain.normalize_fen f = MoveService.normalize_fen f) ∧
    (∀ f, BookTurnonly.normalize_fen f = MoveService.normalize_fen f) ∧
    (∀ f, MoveService.normalize_fen (MoveService.normalize_fen f) =
      MoveService.normalize_fen f) := by
  refine ⟨fun f => rfl, fun f => rfl, fun f => ?_⟩
  rw [MoveService.normalize_fen_eq_nfChars f, MoveService.normalize_fen_eq_nfChars]
  exact congrArg String.mk (nfChars_idem f.data)

theorem sumCounts_bumpCount : ∀ (m : List (String × Nat)) (u : String),
    sumCounts (bumpCount m u) = sumCounts m + 1
  | [], u => rfl
  | (k, v) :: rest, u => by
    by_cases h : (k == u) = true
    · simp [bumpCount, h, sumCounts]
      omega
    · have h' : (k == u) = false := by revert h; cases k == u <;> simp
      simp [bumpCount, h', sumCounts] at *
      have := sumCounts_bumpCount rest u
      simp [sumCounts] at this
      omega

theorem bumpCount_ne_nil (m : List (String × Nat)) (u : String) :
    bumpCount m u ≠ [] := by
  match m with
  | [] => simp [bumpCount]
  | (k, v) :: rest =>
    rw [bumpCount]
    split <;> simp

theorem lookupStr_cons_eq {β : Type _} {k' : String} (v : β)
    (rest : List (String × β)) {k : String} (h : k' = k) :
    lookupStr ((k', v) :: rest) k = some v := by
  subst h
  simp [lookupStr, List.find?_cons]

theorem lookupStr_cons_ne {β : Type _} {k' : String} (v : β)
    (rest : List (String × β)) {k : String} (h : ¬ k' = k) :
    lookupStr ((k', v) :: rest) k = lookupStr rest k := by
  simp [lookupStr, List.find?_cons, h]

theorem lookupStr_bumpCount_self : ∀ (m : List (String × Nat)) (u : String),
    lookupStr (bumpCount m u) u = some ((lookupStr m u).getD 0 + 1)
  | [], u => by simp [bumpCount, lookupStr]
  | (k, v) :: rest, u => by
    by_cases h : k = u
    · subst h
      simp [bumpCount, lookupStr]
    · rw [bumpCount, if_neg (by simp [h]), lookupStr_cons_ne v (bumpCount rest u) h,
        lookupStr_cons_ne v rest h]
      exact lookupStr_bumpCount_self rest u

theorem lookupStr_bumpCount_other : ∀ (m : List (String × Nat)) (u k : String),
    ¬ u = k → lookupStr (bumpCount m u) k = lookupStr m k
  | [], u, k, h => by
    rw [bumpCount, lookupStr_cons_ne 1 [] h]
  | (k', v) :: rest, u, k, h => by
    by_cases hku : k' = u
    · subst hku
      have hkk : ¬ k' = k := fun he => h (he ▸ rfl)
      rw [bumpCount, if_pos (by simp), lookupStr_cons_ne (v + 1) rest hkk,
        lookupStr_cons_ne v rest hkk]
    · rw [bumpCount, if_neg (by simp [hku])]
      by_cases hkk : k' = k
      · rw [lookupStr_cons_eq v (bumpCount rest u) hkk, lookupStr_cons_eq v rest hkk]
      · rw [lookupStr_cons_ne v (bumpCount rest u) hkk, lookupStr_cons_ne v rest hkk]
        exact lookupStr_bumpCount_other rest u k h

theorem lookupStr_bumpMoves_self : ∀ (l : List (String × List (String × Nat)))
    (fen u : String),
    lookupStr (bumpMoves l fen u) fen =
      some (bumpCount ((lookupStr l fen).getD []) u)
  | [], fen, u => by simp [bumpMoves, lookupStr]
  | (k, m) :: rest, fen, u => by
    by_cases h : k = fen
    · subst h
      simp [bumpMoves, lookupStr]
    · rw [bumpMoves, if_neg (by simp [h]), lookupStr_cons_ne m (bumpMoves rest fen u) h,
        lookupStr_cons_ne m rest h]
      exact lookupStr_bumpMoves_self rest fen u

theorem lookupStr_bumpMoves_other : ∀ (l : List (String × List (String × Nat)))
    (fen u k : String), ¬ fen = k →
    lookupStr (bumpMoves l fen u) k = lookupStr l k
  | [], fen, u, k, h => by
    rw [bumpMoves, lookupStr_cons_ne (bumpCount [] u) [] h]
  | (k', m) :: rest, fen, u, k, h => by
    by_cases hkf : k' = fen
    · subst hkf
      have hkk : ¬ k' = k := fun he => h (he ▸ rfl)
      rw [bumpMoves, if_pos (by simp), lookupStr_cons_ne (bumpCount m u) rest hkk,
        lookupStr_cons_ne m rest hkk]
    · rw [bumpMoves, if_neg (by simp [hkf])]
      by_cases hkk : k' = k
      · rw [lookupStr_cons_eq m (bumpMoves rest fen u) hkk, lookupStr_cons_eq m rest hkk]
      · rw [lookupStr_cons_ne m (bumpMoves rest fen u) hkk, lookupStr_cons_ne m rest hkk]
        exact lookupStr_bumpMoves_other rest fen u k h

/-- Invariant tying the two builder counters together: every key of
`move_counts` has a non-empty move list whose counts sum to the
`total_positions` entry, and absent keys are absent from both. -/
def BookInv (st : List (String × Nat) × List (String × List (String × Nat))) : Prop :=
  ∀ fen, (∀ m, lookupStr st.2 fen = some m →
            m ≠ [] ∧ lookupStr st.1 fen = some (sumCounts m)) ∧
         (lookupStr st.2 fen = none → lookupStr st.1 fen = none)

theorem bookInv_empty : BookInv ([], []) := by
  intro fen
  constructor
  · intro m hm
    simp [lookupStr] at hm
  · intro _
    rfl

theorem bookInv_recordPly (st : List (String × Nat) × List (String × List (String × Nat)))
    (hst : BookInv st) (ply : String × String) : BookInv (recordPly st ply) := by
  rcases ply with ⟨f, u⟩
  intro fen
  by_cases hf : f = fen
  · subst hf
    constructor
    · intro m hm
      rw [recordPly] at hm
      dsimp only at hm
      rw [lookupStr_bumpMoves_self] at hm
      injection hm with hm
      subst hm
      refine ⟨bumpCount_ne_nil _ _, ?_⟩
      show lookupStr (bumpCount st.1 f) f = _
      rw [lookupStr_bumpCount_self]
      congr 1
      rw [sumCounts_bumpCount]
      congr 1
      cases hOld : lookupStr st.2 f with
      | none =>
        rw [((hst f).2 hOld)]
        rfl
      | some m₀ =>
        rw [((hst f).1 m₀ hOld).2]
        rfl
    · intro hm
      rw [recordPly] at hm
      dsimp only at hm
      rw [lookupStr_bumpMoves_self] at hm
      cases hm
  · constructor
    · intro m hm
      rw [recordPly] at hm
      dsimp only at hm
      rw [lookupStr_bumpMoves_other _ _ _ _ hf] at hm
      have h := (hst fen).1 m hm
      refine ⟨h.1, ?_⟩
      show lookupStr (bumpCount st.1 f) fen = _
      rw [lookupStr_bumpCount_other _ _ _ hf]
      exact h.2
    · intro hm
      rw [recordPly] at hm
      dsimp only at hm
      rw [lookupStr_bumpMoves_other _ _ _ _ hf] at hm
      show lookupStr (bumpCount st.1 f) fen = none
      rw [lookupStr_bumpCount_other _ _ _ hf]
      exact (hst fen).2 hm

theorem bookInv_foldl : ∀ (plies : List (String × String))
    (st : List (String × Nat) × List (String × List (String × Nat))),
    BookInv st → BookInv (plies.foldl recordPly st)
  | [], st, h => h
  | p :: rest, st, h => by
    rw [List.foldl_cons]
    exact bookInv_foldl rest (recordPly st p) (bookInv_recordPly st h p)

theorem insertDesc_perm (x : String × Nat) : ∀ (l : List (String × Nat)),
    (insertDesc x l).Perm (x :: l)
  | [] => List.Perm.refl _
  | y :: ys => by
    rw [insertDesc]
    split
    · exact (List.Perm.cons y (insertDesc_perm x ys)).trans (List.Perm.swap x y ys)
    · exact List.Perm.refl _

theorem foldl_insertDesc_perm : ∀ (l acc : List (String × Nat)),
    (l.foldl (fun a x => insertDesc x a) acc).Perm (acc ++ l)
  | [], acc => by simp
  | x :: xs, acc => by
    rw [List.foldl_cons]
    have h1 := foldl_insertDesc_perm xs (insertDesc x acc)
    have h2 := (insertDesc_perm x acc).append_right xs
    exact h1.trans (h2.trans List.perm_middle.symm)

theorem sortDesc_perm (l : List (String × Nat)) : (sortDesc l).Perm l := by
  have h := foldl_insertDesc_perm l []
  simpa [sortDesc] using h

theorem sumCounts_sortDesc (l : List (String × Nat)) :
    sumCounts (sortDesc l) = sumCounts l := by
  unfold sumCounts
  exact ((sortDesc_perm l).map Prod.snd).sum_eq

theorem sortDesc_ne_nil {l : List (String × Nat)} (h : l ≠ []) :
    sortDesc l ≠ [] := by
  intro hc
  apply h
  have := (sortDesc_perm l).length_eq
  rw [hc] at this
  exact List.eq_nil_of_length_eq_zero this.symm

theorem maxCount_le_sumCounts : ∀ (l : List (String × Nat)),
    maxCount l ≤ sumCounts l
  | [] => le_refl 0
  | (u, c) :: rest => by
    simp only [maxCount, sumCounts, List.map_cons, List.foldr_cons, List.sum_cons]
    have h := maxCount_le_sumCounts rest
    simp only [maxCount, sumCounts] at h
    exact max_le (Nat.le_add_right _ _) (le_trans h (Nat.le_add_left _ _))

theorem lookupStr_map_pair {β γ : Type _} (g : String × β → γ)
    (l : List (String × β)) (k : String) :
    lookupStr (l.map (fun q => (q.1, g q))) k =
      (l.find? (fun q => q.1 == k)).map g := by
  induction l with
  | nil => rfl
  | cons a rest IH =>
    rcases a with ⟨k', v⟩
    by_cases h : k' = k
    · subst h
      simp [lookupStr, List.find?_cons]
    · simp only [List.map_cons]
      rw [lookupStr_cons_ne (g (k', v)) _ h, IH]
      congr 1
      rw [List.find?_cons]
      have hb : ((k', v).1 == k) = false := by simp [h]
      rw [hb]

theorem lookupStr_positions_out (plies : List (String × String)) (fen : String)
    (t : Nat) (mv : List (String × Nat))
    (h : lookupStr (BookPlain.positions_out plies) fen = some (t, mv)) :
    ∃ m, lookupStr (BookPlain.recordPlies plies).2 fen = some m ∧
      t = (lookupStr (BookPlain.recordPlies plies).1 fen).getD 0 ∧
      mv = sortDesc m := by
  rw [BookPlain.positions_out,
    lookupStr_map_pair
      (fun fm => ((lookupStr (BookPlain.recordPlies plies).1 fm.1).getD 0, sortDesc fm.2))
      (BookPlain.recordPlies plies).2 fen] at h
  cases hfind : List.find? (fun q => q.1 == fen) (BookPlain.recordPlies plies).2 with
  | none =>
    rw [hfind] at h
    cases h
  | some fm =>
    rw [hfind] at h
    have hpair := Option.some.inj h
    have hkey : fm.1 = fen := by
      have := List.find?_some hfind
      simpa using this
    refine ⟨fm.2, ?_, ?_, ?_⟩
    · unfold lookupStr
      rw [hfind]
      rfl
    · rw [← hkey]
      exact (congrArg Prod.fst hpair).symm
    · exact (congrArg Prod.snd hpair).symm

/-- Claim C8: every position entry emitted by either book builder has a
non-empty moves mapping, a total equal to the sum of its move counts
(the two counters are bumped together once per recorded ply), and hence
`total ≥ max(moves.values())`. -/
theorem c8_book_entry_invariant (plies : List (String × String)) (fen : String)
    (t : Nat) (mv : List (String × Nat))
    (h : lookupStr (BookPlain.positions_out plies) fen = some (t, mv) ∨
         lookupStr (BookTurnonly.positions_out plies) fen = some (t, mv)) :
    mv ≠ [] ∧ t = sumCounts mv ∧ maxCount mv ≤ t := by
  have hsame : BookTurnonly.positions_out plies = BookPlain.positions_out plies := rfl
  have h' : lookupStr (BookPlain.positions_out plies) fen = some (t, mv) := by
    rcases h with h | h
    · exact h
    · rw [hsame] at h
      exact h
  obtain ⟨m, hm, ht, hmv⟩ := lookupStr_positions_out plies fen t mv h'
  have hinv := (bookInv_foldl plies ([], []) bookInv_empty fen).1 m hm
  have hne : mv ≠ [] := by
    rw [hmv]
    exact sortDesc_ne_nil hinv.1
  have hsum : t = sumCounts mv := by
    rw [hmv, sumCounts_sortDesc, ht]
    show (lookupStr (List.foldl recordPly ([], []) plies).1 fen).getD 0 = sumCounts m
    rw [hinv.2]
    rfl
  exact ⟨hne, hsum, hsum ▸ maxCount_le_sumCounts mv⟩

/-- Witness for C8 on a concrete recorded-ply list. -/
theorem c8_book_entry_witness :
    ([("a", 2), ("b", 1)] : List (String × Nat)) ≠ [] ∧
    3 = sumCounts [("a", 2), ("b", 1)] ∧
    maxCount [("a", 2), ("b", 1)] ≤ 3 :=
  c8_book_entry_invariant [("p", "a"), ("p", "b"), ("p", "a")] "p" 3
    [("a", 2), ("b", 1)] (Or.inl rfl)

/-- Counterexample to claim C7: the two builders do not emit artifacts of
identical shape.  The plain builder's top level is
`{meta, positions}` while the turn-only builder adds a `stats` object,
and the meta field sets differ: only the plain builder emits
`min_position_count`, `min_top_move_ratio` and `adaptive`, and only the
turn-only builder emits `note`. -/
theorem c7_counterexample :
    jkeys (BookPlain.build_opening_book [] 8 (11/20) 20) = ["meta", "positions"] ∧
    jkeys (BookTurnonly.build_opening_book [] "capo298" 20 0 0 0) =
      ["meta", "positions", "stats"] ∧
    (["meta", "positions"] : List String) ≠ ["meta", "positions", "stats"] ∧
    (jget (BookPlain.build_opening_book [] 8 (11/20) 20) "meta").map jkeys =
      some ["player", "source", "adaptive", "min_position_count",
        "min_top_move_ratio", "max_ply_cap", "fen_format"] ∧
    (jget (BookTurnonly.build_opening_book [] "capo298" 20 0 0 0) "meta").map jkeys =
      some ["player", "source", "note", "max_ply_cap", "fen_format"] ∧
    "min_position_count" ∉ (["player", "source", "note", "max_ply_cap",
      "fen_format"] : List String) := by
  refine ⟨rfl, rfl, by decide, rfl, rfl, by decide⟩

/-- Claim C7 (amended): both builders emit the identical `positions`
shape — they aggregate recorded plies through the same counters and emit
`{total, moves}` entries identically — and share the meta fields
`player`, `source`, `max_ply_cap`, `fen_format`; but the top-level and
meta key sets differ (the turn-only builder adds `stats` and `note` and
lacks `adaptive`/`min_position_count`/`min_top_move_ratio`), the two
differing only in which moves are aggregated into `plies`. -/
theorem c7_artifact_shapes :
    (∀ plies, positionsJ (BookPlain.positions_out plies) =
      positionsJ (BookTurnonly.positions_out plies)) ∧
    (∀ plies mpc mtr cap, jkeys (BookPlain.build_opening_book plies mpc mtr cap) =
      ["meta", "positions"]) ∧
    (∀ plies player cap s1 s2 s3,
      jkeys (BookTurnonly.build_opening_book plies player cap s1 s2 s3) =
      ["meta", "positions", "stats"]) ∧
    (∀ mpc mtr cap, jkeys (BookPlain.metaJ mpc mtr cap) =
      ["player", "source", "adaptive", "min_position_count",
       "min_top_move_ratio", "max_ply_cap", "fen_format"]) ∧
    (∀ player cap, jkeys (BookTurnonly.metaJ player cap) =
      ["player", "source", "note", "max_ply_cap", "fen_format"]) :=
  ⟨fun _ => rfl, fun _ _ _ _ => rfl, fun _ _ _ _ _ _ => rfl,
   fun _ _ _ => rfl, fun _ _ => rfl⟩

/-- Claim C1: for every search command, the relay emits exactly one
best-move line; when the decision boundary accepts (truthy move), that
move is emitted, and on every failure or rejection (HTTP error, timeout,
unreachable service, missing or null move) the engine fallback result is
emitted instead — `request_book_move` catches every exception, so no
boundary failure escapes the loop. -/
theorem c1_exactly_one_bestmove (o : UciWrapper.SvcOutcome) (engineMove : String) :
    ((UciWrapper.handleGo o engineMove).countP UciWrapper.isBestLine = 1) ∧
    (UciWrapper.pyTruthy (UciWrapper.request_book_move o).1 = true →
      UciWrapper.handleGo o engineMove =
        [.info ("book " ++ ((UciWrapper.request_book_move o).1.getD "")),
         .best ((UciWrapper.request_book_move o).1.getD "")]) ∧
    (UciWrapper.pyTruthy (UciWrapper.request_book_move o).1 = false →
      UciWrapper.handleGo o engineMove =
        [.info ("sf " ++ engineMove), .best engineMove]) ∧
    (o = .fail →
      UciWrapper.handleGo o engineMove =
        [.info ("sf " ++ engineMove), .best engineMove]) := by
  refine ⟨?_, ?_, ?_, ?_⟩
  · unfold UciWrapper.handleGo
    cases h : UciWrapper.pyTruthy (UciWrapper.request_book_move o).1 <;>
      simp [h, List.countP_cons, UciWrapper.isBestLine]
  · intro h
    unfold UciWrapper.handleGo
    dsimp only
    rw [h]
    simp
  · intro h
    unfold UciWrapper.handleGo
    dsimp only
    rw [h]
    simp
  · intro h
    subst h
    rfl

/-- Witness for C1: a successful boundary response emits its move; a
failed boundary query emits the engine fallback. -/
theorem c1_witness :
    UciWrapper.handleGo (.ok (some "e2e4") (some "opening_book") (9/10)) "d2d4" =
      [.info "book e2e4", .best "e2e4"] ∧
    UciWrapper.handleGo .fail "d2d4" = [.info "sf d2d4", .best "d2d4"] :=
  ⟨(c1_exactly_one_bestmove (.ok (some "e2e4") (some "opening_book") (9/10))
      "d2d4").2.1 rfl,
   (c1_exactly_one_bestmove .fail "d2d4").2.2.2 rfl⟩

/-- Claim C5 states the spec's intent, but the code has a bug: in
`StockfishUCI._read_until` the 20-second deadline is checked only
between blocking `readline()` calls, and `readline()` has no timeout.
Evaluated at the failing inputs: a subprocess whose only output,
`bestmove e2e4 ponder e7e5`, returns 30 s in — past the deadline — still
gets `e2e4` returned instead of the `"0000"` sentinel; a subprocess that
stays silent but alive hangs the call forever (no sentinel, caller waits
indefinitely).  The sentinel does appear when a non-matching line lets
the between-reads check fire after the deadline, and an in-time
`bestmove` line has its announced token returned as the claim says. -/
theorem c5_bestmove_deadline_bug :
    UciWrapper.bestmove_timed [((30 : ℚ), "bestmove e2e4 ponder e7e5")] = some "e2e4" ∧
    (30 : ℚ) > 20 ∧
    (some "e2e4" ≠ some "0000") ∧
    UciWrapper.bestmove_timed [] = none ∧
    UciWrapper.bestmove_timed [((25 : ℚ), "info depth 1"), ((26 : ℚ), "bestmove e2e4")] =
      some "0000" ∧
    UciWrapper.bestmove_timed [((1 : ℚ), "info depth 1"), ((2 : ℚ), "bestmove e2e4 ponder e7e5")] =
      some "e2e4" := by
  refine ⟨?_, by norm_num, by decide, by decide, ?_, ?_⟩
  · simp +decide [UciWrapper.bestmove_timed, UciWrapper.read_until_timed,
      pySplit, splitWS, isWS, pyStrip, stripP]
  · simp +decide [UciWrapper.bestmove_timed, UciWrapper.read_until_timed,
      pySplit, splitWS, isWS, pyStrip, stripP]
  · simp +decide [UciWrapper.bestmove_timed, UciWrapper.read_until_timed,
      pySplit, splitWS, isWS, pyStrip, stripP]
